import Mathlib

/-!
# ABX exchange client (`clien.cpp`): wire codec, record splitting, gap reconciliation

A shallow embedding of `src/clien.cpp`.

* Bytes (`uint8_t`) are `Fin 256`; `int32_t` values are `Int`, produced from 32-bit
  patterns by `to_int32` (two's complement).
* C++ undefined behaviour (an unchecked read past the end of a vector, `back()` of an
  empty vector, signed overflow of `++`) and exceptions thrown by the socket are made
  explicit: every operation returns `Except Fault _`.
* The socket is an abstract state machine (`Transport`); the client threads its state
  explicitly and keeps a ghost `log` of the wire traffic, which the program never reads.
-/

namespace ABX

/-! ## Data model -/

/-- One `uint8_t`. -/
abbrev Byte := Fin 256

/-- The `struct Packet` of the source: `symbol` is the `std::string` built from four
bytes, `buy_sell_indicator` the `char`, the three numbers are `int32_t`. -/
structure Packet where
  symbol : List Byte
  buy_sell_indicator : Byte
  quantity : Int
  price : Int
  sequence_number : Int
deriving DecidableEq, Repr

/-- What stops a run of the source other than normal completion. The first three are
undefined behaviour in C++, the last is an exception thrown by a socket operation. -/
inductive Fault where
  /-- An unchecked read `data[index]` (or through an iterator) with `size ≤ index`. -/
  | out_of_range (index size : Nat)
  /-- The call `back()` on an empty vector. -/
  | back_of_empty
  /-- The increment `expected_sequence++` at `INT32_MAX`. -/
  | signed_overflow
  /-- The exception `boost::system::system_error` of connect, write or read. -/
  | system_error
deriving DecidableEq, Repr

deriving instance DecidableEq for Except

/-! ## Machine integers -/

/-- The `int32_t` whose two's-complement bit pattern is `n` taken modulo `2^32`. -/
def to_int32 (n : Nat) : Int :=
  if n % 2 ^ 32 < 2 ^ 31 then ((n % 2 ^ 32 : Nat) : Int) else ((n % 2 ^ 32 : Nat) : Int) - 2 ^ 32

/-- The conversion `static_cast<uint8_t>(n)` of an `int32_t`: reduction modulo `2^8`. -/
def static_cast_uint8 (n : Int) : Byte :=
  ⟨(n % 256).toNat, by omega⟩

/-- The largest `int32_t`. -/
def INT32_MAX : Int := 2147483647

/-! ## Wire codec -/

/-- Source `create_stream_request`: `return {1};`. -/
def create_stream_request : List Byte := [1]

/-- Source `create_resend_request(uint8_t sequence_number)`: `return {2, sequence_number};`. -/
def create_resend_request (sequence_number : Byte) : List Byte := [2, sequence_number]

/-- The unchecked element read `data[i]` of a `std::vector<uint8_t>`. -/
def read_at (data : List Byte) (i : Nat) : Except Fault Byte :=
  match data[i]? with
  | some b => .ok b
  | none => .error (.out_of_range i data.length)

/-- The expression `(b0 << 24) | (b1 << 16) | (b2 << 8) | b3` on promoted bytes, stored
into an `int32_t`: the four shifted bytes occupy disjoint bits of a 32-bit pattern, which
is then read as two's complement. -/
def pack_int32 (b0 b1 b2 b3 : Byte) : Int :=
  to_int32 ((b0.val <<< 24) ||| (b1.val <<< 16) ||| (b2.val <<< 8) ||| b3.val)

/-- Source `parse_packet`: no length check, seventeen reads at the fixed offsets
`0 .. 16` in the order of the source text. -/
def parse_packet (data : List Byte) : Except Fault Packet := do
  let s0 ← read_at data 0
  let s1 ← read_at data 1
  let s2 ← read_at data 2
  let s3 ← read_at data 3
  let side ← read_at data 4
  let q0 ← read_at data 5
  let q1 ← read_at data 6
  let q2 ← read_at data 7
  let q3 ← read_at data 8
  let p0 ← read_at data 9
  let p1 ← read_at data 10
  let p2 ← read_at data 11
  let p3 ← read_at data 12
  let n0 ← read_at data 13
  let n1 ← read_at data 14
  let n2 ← read_at data 15
  let n3 ← read_at data 16
  return { symbol := [s0, s1, s2, s3]
           buy_sell_indicator := side
           quantity := pack_int32 q0 q1 q2 q3
           price := pack_int32 p0 p1 p2 p3
           sequence_number := pack_int32 n0 n1 n2 n3 }

/-! ## The socket and the client -/

/-- The TCP peer behind `boost::asio`, as a state machine on `σ`. `none` is a thrown
`boost::system::system_error`. `read s size` is `boost::asio::read` into a buffer of
`size` bytes, which returns only when the buffer is full: `read_length`. -/
structure Transport (σ : Type) where
  connect : σ → Option σ
  write : σ → List Byte → Option σ
  read : σ → Nat → Option (List Byte × σ)
  close : σ → Option σ
  read_length : ∀ s size bs s', read s size = some (bs, s') → bs.length = size

/-- One unit of wire traffic, in the direction seen by the client. -/
inductive Event where
  | sent (request : List Byte)
  | received (response : List Byte)
deriving DecidableEq, Repr

/-- The class `ABXClient`: the socket state, and a ghost record of the traffic so far. -/
structure ABXClient (σ : Type) where
  socket : σ
  log : List Event

/-- Source `ABXClient::connect`. -/
def ABXClient.connect {σ : Type} (T : Transport σ) (c : ABXClient σ) :
    Except Fault (ABXClient σ) :=
  match T.connect c.socket with
  | some s => .ok { c with socket := s }
  | none => .error .system_error

/-- Source `ABXClient::send_request`: `boost::asio::write` of the whole request. -/
def ABXClient.send_request {σ : Type} (T : Transport σ) (c : ABXClient σ)
    (request : List Byte) : Except Fault (ABXClient σ) :=
  match T.write c.socket request with
  | some s => .ok { socket := s, log := c.log ++ [Event.sent request] }
  | none => .error .system_error

/-- Source `ABXClient::receive_response(size)`: a vector of `size` bytes filled by
`boost::asio::read`. -/
def ABXClient.receive_response {σ : Type} (T : Transport σ) (c : ABXClient σ)
    (size : Nat) : Except Fault (List Byte × ABXClient σ) :=
  match T.read c.socket size with
  | some (response, s) => .ok (response, { socket := s, log := c.log ++ [Event.received response] })
  | none => .error .system_error

/-- Source `ABXClient::close`. -/
def ABXClient.close {σ : Type} (T : Transport σ) (c : ABXClient σ) :
    Except Fault (ABXClient σ) :=
  match T.close c.socket with
  | some s => .ok { c with socket := s }
  | none => .error .system_error

/-! ## `main`, step 2: splitting the initial burst -/

/-- The bytes of `data` at positions `[lo, hi)`: the vector built from the iterator
pair `(data.begin() + lo, data.begin() + hi)`. -/
def slice (data : List Byte) (lo hi : Nat) : List Byte :=
  (data.drop lo).take (hi - lo)

/-- The loop `while (index + 17 <= response.size())` of `main`, from the state
`(index, packets)`. -/
def split_loop (response : List Byte) (index : Nat) (packets : List Packet) :
    Except Fault (List Packet) :=
  if index + 17 ≤ response.length then
    match parse_packet (slice response index (index + 17)) with
    | .ok packet => split_loop response (index + 17) (packets ++ [packet])
    | .error f => .error f
  else
    .ok packets
termination_by response.length - index
decreasing_by omega

/-- Step 2 of `main` after the receive: `packets` empty, `index = 0`, then the loop. -/
def split_records (response : List Byte) : Except Fault (List Packet) :=
  split_loop response 0 []

/-! ## `main`, step 3: gap detection and resend -/

/-- The call `std::sort(v.begin(), v.end())` on a vector of `int32_t`: the ascending
rearrangement. -/
def std_sort (v : List Int) : List Int :=
  v.insertionSort (· ≤ ·)

/-- The body of the `if` in the gap loop: build the request from the narrowed counter,
send it, receive 17 bytes, parse them, push the packet. -/
def request_missing {σ : Type} (T : Transport σ) (expected_sequence : Int)
    (c : ABXClient σ) (packets : List Packet) : Except Fault (ABXClient σ × List Packet) :=
  let resend_request := create_resend_request (static_cast_uint8 expected_sequence)
  match c.send_request T resend_request with
  | .error f => .error f
  | .ok c1 =>
    match c1.receive_response T 17 with
    | .error f => .error f
    | .ok (missing_response, c2) =>
      match parse_packet missing_response with
      | .error f => .error f
      | .ok packet => .ok (c2, packets ++ [packet])

/-- The call `v.back()` on a vector of `int32_t`. -/
def back (v : List Int) : Except Fault Int :=
  match v.getLast? with
  | some x => .ok x
  | none => .error .back_of_empty

/-- The loop `while (expected_sequence <= received_sequences.back())` of `main`, from
the state `(expected_sequence, client, packets)`. `received_sequences` is not modified
by the loop. The increment `expected_sequence++` of an `int32_t` that already holds
`INT32_MAX` is a signed overflow. -/
def gap_loop {σ : Type} (T : Transport σ) (received_sequences : List Int)
    (expected_sequence : Int) (c : ABXClient σ) (packets : List Packet) :
    Except Fault (ABXClient σ × List Packet) :=
  match back received_sequences with
  | .error f => .error f
  | .ok last =>
    if expected_sequence ≤ last then
      match (if expected_sequence ∈ received_sequences then .ok (c, packets)
             else request_missing T expected_sequence c packets) with
      | .error f => .error f
      | .ok (c1, packets1) =>
        if INT32_MAX ≤ expected_sequence then .error .signed_overflow
        else gap_loop T received_sequences (expected_sequence + 1) c1 packets1
    else
      .ok (c, packets)
termination_by (INT32_MAX + 1 - expected_sequence).toNat
decreasing_by omega

/-- Step 3 of `main`: collect the sequence numbers, sort them, run the gap loop from
`expected_sequence = 1`. -/
def handle_missing_sequences {σ : Type} (T : Transport σ) (c : ABXClient σ)
    (packets : List Packet) : Except Fault (ABXClient σ × List Packet) :=
  let received_sequences := std_sort (packets.map (fun packet => packet.sequence_number))
  gap_loop T received_sequences 1 c packets

/-- The body of the `try` block of `main`: connect, stream request, one receive of 1024
bytes, steps 2 and 3, close. The second component is the vector `packets` as it is
handed, unchanged, to `generate_json_output`; the JSON text and the file it is written
to are outside the model. -/
def session {σ : Type} (T : Transport σ) (c : ABXClient σ) :
    Except Fault (ABXClient σ × List Packet) := do
  let c ← c.connect T
  let c ← c.send_request T create_stream_request
  let (response, c) ← c.receive_response T 1024
  let packets ← split_records response
  let (c, packets) ← handle_missing_sequences T c packets
  let c ← c.close T
  return (c, packets)

/-- What a run of `main` leaves behind: the exit status, the vector handed to
`generate_json_output` and written to `output.json` (if that point is reached), whether
the `catch` block wrote its `Error: ...` line to `std::cerr`, and whether the closing
line `JSON output saved to output.json` went to `std::cout`. -/
structure Outcome where
  exit_code : Int
  output_json : Option (List Packet)
  error_printed : Bool
  saved_printed : Bool
deriving DecidableEq, Repr

/-- Steps 1 to 3 of the `try` block of `main`: everything before the output is
generated. -/
def collect_packets {σ : Type} (T : Transport σ) (c : ABXClient σ) :
    Except Fault (ABXClient σ × List Packet) := do
  let c ← c.connect T
  let c ← c.send_request T create_stream_request
  let (response, c) ← c.receive_response T 1024
  let packets ← split_records response
  handle_missing_sequences T c packets

/-- Source `main`. An exception thrown by a socket operation is caught by
`catch (const std::exception& e)`, which prints it; both paths then reach the single
`return 0;`. The output file is written before the connection is closed. Undefined
behaviour is not an exception and stays a fault. -/
def main {σ : Type} (T : Transport σ) (c : ABXClient σ) : Except Fault Outcome :=
  match collect_packets T c with
  | .error .system_error =>
    .ok { exit_code := 0, output_json := none, error_printed := true, saved_printed := false }
  | .error f => .error f
  | .ok (c1, packets) =>
    match c1.close T with
    | .error .system_error =>
      .ok { exit_code := 0, output_json := some packets, error_printed := true,
            saved_printed := false }
    | .error f => .error f
    | .ok _ =>
      .ok { exit_code := 0, output_json := some packets, error_printed := false,
            saved_printed := true }

/-! ## Reference notions used to state the properties -/

/-- The integers `n` with `lo ≤ n ≤ hi` that do not occur in `seqs`, ascending. -/
def missing_between (seqs : List Int) (lo hi : Int) : List Int :=
  ((List.range (hi + 1 - lo).toNat).map (fun (i : Nat) => lo + (i : Int))).filter (fun n => n ∉ seqs)

/-- The run of `request_missing` over a list of numbers, in order, stopping at the
first fault. -/
def resend_all {σ : Type} (T : Transport σ) :
    List Int → ABXClient σ → List Packet → Except Fault (ABXClient σ × List Packet)
  | [], c, packets => .ok (c, packets)
  | n :: ns, c, packets =>
    match request_missing T n c packets with
    | .error f => .error f
    | .ok (c1, packets1) => resend_all T ns c1 packets1

/-- A peer that answers every resend request: the write succeeds and the read of 17
bytes that follows succeeds. -/
def Transport.Answers {σ : Type} (T : Transport σ) : Prop :=
  ∀ (s : σ) (n : Byte), ∃ s1 response s2,
    T.write s (create_resend_request n) = some s1 ∧ T.read s1 17 = some (response, s2)

/-- A peer that answers every resend request `[2, n]` with a record whose sequence
number is `n`. -/
def Transport.AnswersFaithfully {σ : Type} (T : Transport σ) : Prop :=
  ∀ (s : σ) (n : Byte), ∃ s1 response s2 packet,
    T.write s (create_resend_request n) = some s1 ∧ T.read s1 17 = some (response, s2) ∧
    parse_packet response = .ok packet ∧ packet.sequence_number = (n.val : Int)

/-- The traffic of one resend round-trip per number: request, then its response. -/
def round_trips (ns : List Int) (responses : List (List Byte)) : List Event :=
  (List.zipWith (fun n response =>
    [Event.sent (create_resend_request (static_cast_uint8 n)), Event.received response])
    ns responses).flatten


/-- The unsigned number written big-endian by a list of bytes. -/
def be_unsigned (bs : List Byte) : Nat :=
  bs.foldl (fun acc b => acc * 256 + b.val) 0

/-- The value of a 32-bit pattern `u < 2^32` read as a two's-complement signed number. -/
def twos_complement32 (u : Nat) : Int :=
  if u < 2 ^ 31 then (u : Int) else (u : Int) - 2 ^ 32

/-- Whether an event is a resend request going out: two bytes, the first `0x02`. -/
def Event.is_resend : Event → Bool
  | .sent [t, _] => t == 2
  | _ => false

/-- The number of resend requests in a stretch of traffic. -/
def resend_count (log : List Event) : Nat :=
  log.countP Event.is_resend

/-- The requests sent in a stretch of traffic, in order. -/
def sent_requests (log : List Event) : List (List Byte) :=
  log.filterMap (fun e => match e with
    | .sent request => some request
    | .received _ => none)

/-- The set of distinct sequence numbers of a record set. -/
def present (packets : List Packet) : Finset Int :=
  (packets.map (fun packet => packet.sequence_number)).toFinset

/-! ## Test fixtures -/

/-- The record `AAPL`, `B`, quantity 10, price 100 with sequence number `n`, on the wire. -/
def record_with_sequence (n : Nat) : List Byte :=
  [65, 65, 80, 76, 66, 0, 0, 0, 10, 0, 0, 0, 100,
    Fin.ofNat (n / 2 ^ 24), Fin.ofNat (n / 2 ^ 16), Fin.ofNat (n / 2 ^ 8), Fin.ofNat n]

/-- The packet `AAPL`, `B`, quantity 10, price 100 with sequence number `n`. -/
def packet_with_sequence (n : Int) : Packet :=
  { symbol := [65, 65, 80, 76], buy_sell_indicator := 66, quantity := 10, price := 100,
    sequence_number := n }

/-- A mock peer. Its state is the bytes it has still to deliver. The stream request is
answered with `burst`, a resend request `[2, n]` with the record of sequence number
`n`; a read of more bytes than are pending fails. -/
def mock_server (burst : List Byte) : Transport (List Byte) where
  connect s := some s
  write _ request :=
    if request = create_stream_request then some burst
    else match request with
      | [t, n] => if t = 2 then some (record_with_sequence n.val) else none
      | _ => none
  read s size := if size ≤ s.length then some (s.take size, s.drop size) else none
  close s := some s
  read_length := by
    intro s size bs s' h
    by_cases hsize : size ≤ s.length
    · simp only [hsize, if_true, Option.some.injEq, Prod.mk.injEq] at h
      rw [← h.1, List.length_take]
      omega
    · simp [hsize] at h

/-- A mock peer like `mock_server` that answers a resend request `[2, n]` with the
record of sequence number `n + 2`. -/
def skewed_server (burst : List Byte) : Transport (List Byte) where
  connect s := some s
  write _ request :=
    if request = create_stream_request then some burst
    else match request with
      | [t, n] => if t = 2 then some (record_with_sequence (n.val + 2)) else none
      | _ => none
  read s size := if size ≤ s.length then some (s.take size, s.drop size) else none
  close s := some s
  read_length := (mock_server burst).read_length

/-- A mock peer that refuses the connection. -/
def refusing_server (burst : List Byte) : Transport (List Byte) :=
  { mock_server burst with connect := fun _ => none }

/-- A mock peer that accepts the connection and fails every write. -/
def deaf_server (burst : List Byte) : Transport (List Byte) :=
  { mock_server burst with write := fun _ _ => none }

/-- A mock peer that accepts the connection and the requests and fails every read. -/
def mute_server (burst : List Byte) : Transport (List Byte) :=
  { mock_server burst with
    read := fun _ _ => none
    read_length := fun _ _ _ _ h => nomatch h }

/-- The 1024 bytes of an initial burst: the records numbered `seqs`, then `pad`. -/
def burst_of (seqs : List Nat) (pad : List Byte) : List Byte :=
  (seqs.map record_with_sequence).flatten ++ pad

/-- The sixty sequence numbers `1, .., 59, last`. -/
def sixty_with_last (last : Nat) : List Nat :=
  (List.range 59).map (fun i => i + 1) ++ [last]

/-- The sixty sequence numbers `1, .., 58, a, b`. -/
def sixty_with_last_two (a b : Nat) : List Nat :=
  (List.range 58).map (fun i => i + 1) ++ [a, b]

/-- The client before `connect`, over the mock peer. -/
def fresh_client : ABXClient (List Byte) := { socket := [], log := [] }

/-- A seventeen-byte record: symbol `AAPL`, side `B`, quantity bytes `FF FF FF FF`,
price `0x00000102`, sequence number `0x00000003`. -/
def sample_record : List Byte :=
  [65, 65, 80, 76, 66, 255, 255, 255, 255, 0, 0, 1, 2, 0, 0, 0, 3]

/-! ## Wire codec: proofs -/

theorem pack_int32_eq (b0 b1 b2 b3 : Byte) :
    pack_int32 b0 b1 b2 b3 = twos_complement32 (be_unsigned [b0, b1, b2, b3]) := by
  have h0 := b0.isLt
  have h1 := b1.isLt
  have h2 := b2.isLt
  have h3 := b3.isLt
  have e1 : 2 ^ 8 * b2.val ||| b3.val = 2 ^ 8 * b2.val + b3.val :=
    (Nat.mul_add_lt_is_or (by omega) _).symm
  have e2 : 2 ^ 16 * b1.val ||| (2 ^ 8 * b2.val + b3.val) =
      2 ^ 16 * b1.val + (2 ^ 8 * b2.val + b3.val) :=
    (Nat.mul_add_lt_is_or (by omega) _).symm
  have e3 : 2 ^ 24 * b0.val ||| (2 ^ 16 * b1.val + (2 ^ 8 * b2.val + b3.val)) =
      2 ^ 24 * b0.val + (2 ^ 16 * b1.val + (2 ^ 8 * b2.val + b3.val)) :=
    (Nat.mul_add_lt_is_or (by omega) _).symm
  have hor : (b0.val <<< 24) ||| (b1.val <<< 16) ||| (b2.val <<< 8) ||| b3.val =
      be_unsigned [b0, b1, b2, b3] := by
    rw [Nat.shiftLeft_eq, Nat.shiftLeft_eq, Nat.shiftLeft_eq, Nat.lor_assoc, Nat.lor_assoc,
      Nat.mul_comm b0.val, Nat.mul_comm b1.val, Nat.mul_comm b2.val, e1, e2, e3]
    simp only [be_unsigned, List.foldl_cons, List.foldl_nil]
    omega
  have hlt : be_unsigned [b0, b1, b2, b3] < 2 ^ 32 := by
    simp only [be_unsigned, List.foldl_cons, List.foldl_nil]
    omega
  unfold pack_int32 to_int32 twos_complement32
  rw [hor, Nat.mod_eq_of_lt hlt]

theorem read_at_of_lt (data : List Byte) (i : Nat) (h : i < data.length) :
    read_at data i = .ok data[i] := by
  simp [read_at, List.getElem?_eq_getElem h]

theorem read_at_of_le (data : List Byte) (i : Nat) (h : data.length ≤ i) :
    read_at data i = .error (.out_of_range i data.length) := by
  simp [read_at, List.getElem?_eq_none h]

/-- The result of `parse_packet` on a buffer that holds at least seventeen bytes. -/
theorem parse_packet_eq (data : List Byte) (h : 17 ≤ data.length) :
    parse_packet data = .ok
      { symbol := [data[0], data[1], data[2], data[3]]
        buy_sell_indicator := data[4]
        quantity := pack_int32 data[5] data[6] data[7] data[8]
        price := pack_int32 data[9] data[10] data[11] data[12]
        sequence_number := pack_int32 data[13] data[14] data[15] data[16] } := by
  unfold parse_packet
  simp only [read_at_of_lt data _ (show 0 < data.length by omega),
    read_at_of_lt data _ (show 1 < data.length by omega),
    read_at_of_lt data _ (show 2 < data.length by omega),
    read_at_of_lt data _ (show 3 < data.length by omega),
    read_at_of_lt data _ (show 4 < data.length by omega),
    read_at_of_lt data _ (show 5 < data.length by omega),
    read_at_of_lt data _ (show 6 < data.length by omega),
    read_at_of_lt data _ (show 7 < data.length by omega),
    read_at_of_lt data _ (show 8 < data.length by omega),
    read_at_of_lt data _ (show 9 < data.length by omega),
    read_at_of_lt data _ (show 10 < data.length by omega),
    read_at_of_lt data _ (show 11 < data.length by omega),
    read_at_of_lt data _ (show 12 < data.length by omega),
    read_at_of_lt data _ (show 13 < data.length by omega),
    read_at_of_lt data _ (show 14 < data.length by omega),
    read_at_of_lt data _ (show 15 < data.length by omega),
    read_at_of_lt data _ (show 16 < data.length by omega)]
  rfl

theorem slice_four (data : List Byte) (i : Nat) (h : i + 4 ≤ data.length) :
    slice data i (i + 4) = [data[i], data[i + 1], data[i + 2], data[i + 3]] := by
  apply List.ext_getElem
  · simp [slice]; omega
  · intro k h1 h2
    simp only [List.length_cons, List.length_nil] at h2
    have hk : k = 0 ∨ k = 1 ∨ k = 2 ∨ k = 3 := by omega
    rcases hk with rfl | rfl | rfl | rfl <;> simp [slice]

theorem slice_one (data : List Byte) (i : Nat) (h : i + 1 ≤ data.length) :
    slice data i (i + 1) = [data[i]] := by
  apply List.ext_getElem
  · simp [slice]; omega
  · intro k h1 h2
    simp only [List.length_cons, List.length_nil] at h2
    have hk : k = 0 := by omega
    subst hk; simp [slice]

/-- C1: on every buffer of at least seventeen bytes `parse_packet` returns a packet,
whatever the field values: the symbol is bytes 0..3, the side is byte 4, and quantity,
price and sequence number are the signed two's-complement big-endian 32-bit numbers
written by bytes 5..8, 9..12 and 13..16. -/
theorem parse_packet_decodes (data : List Byte) (h : 17 ≤ data.length) :
    ∃ packet, parse_packet data = .ok packet ∧
      packet.symbol = slice data 0 4 ∧
      [packet.buy_sell_indicator] = slice data 4 5 ∧
      packet.quantity = twos_complement32 (be_unsigned (slice data 5 9)) ∧
      packet.price = twos_complement32 (be_unsigned (slice data 9 13)) ∧
      packet.sequence_number = twos_complement32 (be_unsigned (slice data 13 17)) := by
  refine ⟨_, parse_packet_eq data h, ?_, ?_, ?_, ?_, ?_⟩
  · exact (slice_four data 0 (by omega)).symm
  · exact (slice_one data 4 (by omega)).symm
  · rw [slice_four data 5 (by omega)]; exact pack_int32_eq _ _ _ _
  · rw [slice_four data 9 (by omega)]; exact pack_int32_eq _ _ _ _
  · rw [slice_four data 13 (by omega)]; exact pack_int32_eq _ _ _ _

/-- The theorem `parse_packet_decodes` at `sample_record`, whose quantity bytes are
`FF FF FF FF`. -/
theorem parse_packet_decodes_witness :
    17 ≤ sample_record.length ∧
    ∃ packet, parse_packet sample_record = .ok packet ∧
      packet.symbol = slice sample_record 0 4 ∧
      [packet.buy_sell_indicator] = slice sample_record 4 5 ∧
      packet.quantity = twos_complement32 (be_unsigned (slice sample_record 5 9)) ∧
      packet.price = twos_complement32 (be_unsigned (slice sample_record 9 13)) ∧
      packet.sequence_number = twos_complement32 (be_unsigned (slice sample_record 13 17)) :=
  ⟨by decide, parse_packet_decodes sample_record (by decide)⟩

/-- The bytes `FF FF FF FF` decode to `-1`. -/
theorem parse_packet_sample :
    parse_packet sample_record = .ok
      { symbol := [65, 65, 80, 76], buy_sell_indicator := 66, quantity := -1, price := 258,
        sequence_number := 3 } := by
  decide

/-- C2, as the source has it: `parse_packet` has no length check. On a buffer of
sixteen bytes or fewer it reads, unchecked, the index equal to the length of the
buffer, which is undefined behaviour; no packet and no error value is defined. -/
theorem parse_packet_short (data : List Byte) (h : data.length ≤ 16) :
    parse_packet data = .error (.out_of_range data.length data.length) := by
  iterate 17 (rcases data with _ | ⟨_, data⟩; · rfl)
  simp only [List.length_cons] at h
  omega

/-- The theorem `parse_packet_short` at the empty buffer. -/
theorem parse_packet_short_witness :
    ([] : List Byte).length ≤ 16 ∧
    parse_packet [] = .error (.out_of_range ([] : List Byte).length ([] : List Byte).length) :=
  ⟨by decide, parse_packet_short [] (by decide)⟩

/-- C2 fails as stated: on the first sixteen bytes of `sample_record` the source reads
index 16 of a buffer of length 16. -/
theorem parse_packet_reads_past_end :
    (sample_record.take 16).length = 16 ∧
    parse_packet (sample_record.take 16) = .error (.out_of_range 16 16) := by
  decide

/-- C10: for every `seq` with `0 ≤ seq ≤ 255`, the request built for it (through the
narrowing done at the call site) is exactly the two bytes `0x02, seq`. -/
theorem create_resend_request_bytes (seq : Int) (h0 : 0 ≤ seq) (h1 : seq ≤ 255) :
    (create_resend_request (static_cast_uint8 seq)).map (fun b => (b.val : Int)) = [2, seq] := by
  simp only [create_resend_request, static_cast_uint8, List.map_cons, List.map_nil]
  have : ((seq % 256).toNat : Int) = seq := by omega
  simp [this]

/-- The theorem `create_resend_request_bytes` at `seq = 200`. -/
theorem create_resend_request_bytes_witness :
    (0 : Int) ≤ 200 ∧ (200 : Int) ≤ 255 ∧
    (create_resend_request (static_cast_uint8 200)).map (fun b => (b.val : Int)) = [2, 200] :=
  ⟨by decide, by decide, create_resend_request_bytes 200 (by decide) (by decide)⟩

/-! ## Record splitting: proofs -/

theorem length_slice (data : List Byte) (lo hi : Nat) (h : hi ≤ data.length) :
    (slice data lo hi).length = hi - lo := by
  simp [slice]; omega

theorem slice_take (data : List Byte) (m lo hi : Nat) (h : hi ≤ m) :
    slice (data.take m) lo hi = slice data lo hi := by
  simp only [slice, List.drop_take, List.take_take]
  congr 1
  omega

theorem split_loop_spec (response : List Byte) :
    ∀ (k index : Nat) (packets : List Packet),
      index + 17 * k ≤ response.length → response.length < index + 17 * k + 17 →
      ∃ records, split_loop response index packets = .ok (packets ++ records) ∧
        records.length = k ∧
        ∀ (j : Nat) (hj : j < records.length),
          parse_packet (slice response (index + 17 * j) (index + 17 * j + 17)) = .ok records[j] := by
  intro k
  induction k with
  | zero =>
    intro index packets h1 h2
    refine ⟨[], ?_, rfl, ?_⟩
    · rw [split_loop, if_neg (by omega), List.append_nil]
    · intro j hj; simp at hj
  | succ k ih =>
    intro index packets h1 h2
    obtain ⟨packet, hp⟩ : ∃ packet,
        parse_packet (slice response index (index + 17)) = .ok packet :=
      ⟨_, parse_packet_eq _ (by rw [length_slice _ _ _ (by omega)]; omega)⟩
    obtain ⟨records, hrun, hlen, hrec⟩ :=
      ih (index + 17) (packets ++ [packet]) (by omega) (by omega)
    refine ⟨packet :: records, ?_, by simp [hlen], ?_⟩
    · rw [split_loop, if_pos (by omega), hp]
      simp only
      rw [hrun, List.append_assoc, List.singleton_append]
    · intro j hj
      cases j with
      | zero => simpa using hp
      | succ j =>
        have := hrec j (by simpa using hj)
        simp only [List.getElem_cons_succ]
        rw [← this]
        congr 2 <;> omega

/-- C3: on a buffer of length `17 * k + r` with `r < 17` the splitting loop returns
exactly `k` records, the `i`-th being the decode of bytes `[17 * i, 17 * i + 17)`, and
the result is that of the first `17 * k` bytes alone: the trailing `r` bytes contribute
to no record. -/
theorem split_records_spec (response : List Byte) (k r : Nat)
    (hlen : response.length = 17 * k + r) (hr : r < 17) :
    ∃ records, split_records response = .ok records ∧ records.length = k ∧
      (∀ (i : Nat) (hi : i < records.length),
        parse_packet (slice response (17 * i) (17 * i + 17)) = .ok records[i]) ∧
      split_records (response.take (17 * k)) = .ok records := by
  obtain ⟨records, hrun, hk, hrec⟩ :=
    split_loop_spec response k 0 [] (by omega) (by omega)
  have htake : (response.take (17 * k)).length = 17 * k := by
    rw [List.length_take]; omega
  obtain ⟨records', hrun', hk', hrec'⟩ :=
    split_loop_spec (response.take (17 * k)) k 0 [] (by omega) (by omega)
  have hsame : records' = records := by
    apply List.ext_getElem (by omega)
    intro i h1 h2
    have e1 := hrec' i h1
    have e2 := hrec i h2
    rw [slice_take _ _ _ _ (by omega), e2] at e1
    exact (Except.ok.inj e1).symm
  simp only [List.nil_append, Nat.zero_add] at hrun hrec hrun'
  exact ⟨records, hrun, hk, hrec, by rw [split_records, hrun', hsame]⟩

/-- The theorem `split_records_spec` at a buffer of `17 * 1 + 2` bytes. -/
theorem split_records_spec_witness :
    (sample_record ++ [7, 9]).length = 17 * 1 + 2 ∧ 2 < 17 ∧
    ∃ records, split_records (sample_record ++ [7, 9]) = .ok records ∧ records.length = 1 ∧
      (∀ (i : Nat) (hi : i < records.length),
        parse_packet (slice (sample_record ++ [7, 9]) (17 * i) (17 * i + 17)) = .ok records[i]) ∧
      split_records ((sample_record ++ [7, 9]).take (17 * 1)) = .ok records :=
  ⟨by decide, by decide, split_records_spec (sample_record ++ [7, 9]) 1 2 (by decide) (by decide)⟩

/-! ## Gap detection and resend: proofs -/

theorem mem_std_sort (seqs : List Int) (n : Int) : n ∈ std_sort seqs ↔ n ∈ seqs :=
  (List.perm_insertionSort (· ≤ ·) seqs).mem_iff

theorem back_std_sort (seqs : List Int) (maxSeq : Int) (hmem : maxSeq ∈ seqs)
    (hmax : ∀ s ∈ seqs, s ≤ maxSeq) : back (std_sort seqs) = .ok maxSeq := by
  have hsorted : (std_sort seqs).Sorted (· ≤ ·) := List.sorted_insertionSort (· ≤ ·) seqs
  have hmem' : maxSeq ∈ std_sort seqs := (mem_std_sort seqs maxSeq).2 hmem
  rcases List.eq_nil_or_concat (std_sort seqs) with hnil | ⟨init, x, hcat⟩
  · rw [hnil] at hmem'; cases hmem'
  · rw [List.concat_eq_append] at hcat
    have hx : x ∈ seqs := (mem_std_sort seqs x).1 (by rw [hcat]; simp)
    have hle : maxSeq ≤ x := by
      rw [hcat] at hsorted hmem'
      rcases List.mem_append.1 hmem' with h | h
      · exact (List.pairwise_append.1 hsorted).2.2 maxSeq h x (by simp)
      · simp at h; omega
    have : x = maxSeq := le_antisymm (hmax x hx) hle
    simp [back, hcat, this]

theorem missing_between_std_sort (seqs : List Int) (lo hi : Int) :
    missing_between (std_sort seqs) lo hi = missing_between seqs lo hi := by
  simp only [missing_between, mem_std_sort]

theorem mem_missing_between (seqs : List Int) (lo hi n : Int) :
    n ∈ missing_between seqs lo hi ↔ lo ≤ n ∧ n ≤ hi ∧ n ∉ seqs := by
  simp only [missing_between, List.mem_filter, List.mem_map, List.mem_range, decide_eq_true_eq]
  constructor
  · rintro ⟨⟨i, hi1, rfl⟩, hn⟩
    exact ⟨by omega, by omega, hn⟩
  · rintro ⟨h1, h2, h3⟩
    exact ⟨⟨(n - lo).toNat, by omega, by omega⟩, h3⟩

theorem sorted_missing_between (seqs : List Int) (lo hi : Int) :
    (missing_between seqs lo hi).Sorted (· < ·) := by
  apply List.Pairwise.filter
  rw [List.pairwise_map]
  exact (List.pairwise_lt_range _).imp (by intro a b h; omega)

theorem missing_between_of_lt (seqs : List Int) (lo hi : Int) (h : hi < lo) :
    missing_between seqs lo hi = [] := by
  have : (hi + 1 - lo).toNat = 0 := by omega
  simp [missing_between, this]

theorem missing_between_step (seqs : List Int) (lo hi : Int) (h : lo ≤ hi) :
    missing_between seqs lo hi =
      (if lo ∈ seqs then [] else [lo]) ++ missing_between seqs (lo + 1) hi := by
  have hn : (hi + 1 - lo).toNat = (hi + 1 - (lo + 1)).toNat + 1 := by omega
  simp only [missing_between]
  rw [hn, List.range_succ_eq_map, List.map_cons, List.map_map, List.filter_cons]
  have hfun : ((fun i : Nat => lo + (i : Int)) ∘ Nat.succ) = fun i : Nat => lo + 1 + (i : Int) := by
    funext i
    simp only [Function.comp_apply, Nat.succ_eq_add_one, Nat.cast_add, Nat.cast_one]
    omega
  rw [hfun]
  by_cases hmem : lo ∈ seqs <;> simp [hmem]

theorem gap_loop_unfold {σ : Type} (T : Transport σ) (rs : List Int) (last : Int)
    (hlast : back rs = .ok last) (e : Int) (c : ABXClient σ) (packets : List Packet) :
    gap_loop T rs e c packets =
      if e ≤ last then
        match (if e ∈ rs then .ok (c, packets) else request_missing T e c packets) with
        | .error f => .error f
        | .ok (c1, packets1) =>
          if INT32_MAX ≤ e then .error .signed_overflow
          else gap_loop T rs (e + 1) c1 packets1
      else .ok (c, packets) := by
  rw [gap_loop, hlast]

theorem gap_loop_eq {σ : Type} (T : Transport σ) (rs : List Int) (last : Int)
    (hlast : back rs = .ok last) (hmax : last < INT32_MAX) :
    ∀ (n : Nat) (e : Int) (c : ABXClient σ) (packets : List Packet),
      (last + 1 - e).toNat = n →
      gap_loop T rs e c packets = resend_all T (missing_between rs e last) c packets := by
  intro n
  induction n with
  | zero =>
    intro e c packets hn
    rw [gap_loop_unfold T rs last hlast, if_neg (by omega),
      missing_between_of_lt _ _ _ (by omega)]
    rfl
  | succ n ih =>
    intro e c packets hn
    have hle : e ≤ last := by omega
    have hne : ¬ INT32_MAX ≤ e := by omega
    rw [gap_loop_unfold T rs last hlast, if_pos hle, missing_between_step _ _ _ hle]
    by_cases hmem : e ∈ rs
    · simp only [hmem, if_true, if_neg hne, List.nil_append]
      exact ih (e + 1) c packets (by omega)
    · simp only [hmem, if_false, List.singleton_append, resend_all]
      cases hreq : request_missing T e c packets with
      | error f => rfl
      | ok st =>
        obtain ⟨c1, packets1⟩ := st
        simp only [if_neg hne]
        exact ih (e + 1) c1 packets1 (by omega)

theorem parse_packet_ok (data : List Byte) (h : data.length = 17) :
    ∃ packet, parse_packet data = .ok packet :=
  ⟨_, parse_packet_eq data (by omega)⟩

theorem request_missing_ok {σ : Type} (T : Transport σ) (hT : T.Answers) (n : Int)
    (c : ABXClient σ) (packets : List Packet) :
    ∃ c1 response packet,
      request_missing T n c packets = .ok (c1, packets ++ [packet]) ∧
      response.length = 17 ∧ parse_packet response = .ok packet ∧
      c1.log = c.log ++ [Event.sent (create_resend_request (static_cast_uint8 n)),
        Event.received response] := by
  obtain ⟨s1, response, s2, hw, hr⟩ := hT c.socket (static_cast_uint8 n)
  have hlen := T.read_length _ _ _ _ hr
  obtain ⟨packet, hp⟩ := parse_packet_ok response hlen
  refine ⟨{ socket := s2, log := c.log ++ [Event.sent (create_resend_request
    (static_cast_uint8 n))] ++ [Event.received response] }, response, packet, ?_, hlen, hp, ?_⟩
  · simp only [request_missing, ABXClient.send_request, hw, ABXClient.receive_response, hr, hp]
  · simp

theorem request_missing_faithful {σ : Type} (T : Transport σ) (hT : T.AnswersFaithfully)
    (n : Int) (c : ABXClient σ) (packets : List Packet) :
    ∃ c1 packet, request_missing T n c packets = .ok (c1, packets ++ [packet]) ∧
      packet.sequence_number = ((static_cast_uint8 n).val : Int) := by
  obtain ⟨s1, response, s2, packet, hw, hr, hp, hseq⟩ := hT c.socket (static_cast_uint8 n)
  refine ⟨{ socket := s2, log := c.log ++ [Event.sent (create_resend_request
    (static_cast_uint8 n))] ++ [Event.received response] }, packet, ?_, hseq⟩
  simp only [request_missing, ABXClient.send_request, hw, ABXClient.receive_response, hr, hp]

theorem Transport.AnswersFaithfully.answers {σ : Type} {T : Transport σ}
    (hT : T.AnswersFaithfully) : T.Answers := by
  intro s n
  obtain ⟨s1, response, s2, _, hw, hr, _⟩ := hT s n
  exact ⟨s1, response, s2, hw, hr⟩

theorem resend_all_ok {σ : Type} (T : Transport σ) (hT : T.Answers) :
    ∀ (ns : List Int) (c : ABXClient σ) (packets : List Packet),
      ∃ c1 responses resent,
        resend_all T ns c packets = .ok (c1, packets ++ resent) ∧
        responses.length = ns.length ∧ (∀ r ∈ responses, r.length = 17) ∧
        responses.map parse_packet = resent.map Except.ok ∧
        c1.log = c.log ++ round_trips ns responses := by
  intro ns
  induction ns with
  | nil =>
    intro c packets
    exact ⟨c, [], [], by simp [resend_all], rfl, by simp, rfl, by simp [round_trips]⟩
  | cons n ns ih =>
    intro c packets
    obtain ⟨c1, response, packet, hreq, hlen, hp, hlog⟩ := request_missing_ok T hT n c packets
    obtain ⟨c2, responses, resent, hrun, hlens, h17, hparse, hlog2⟩ :=
      ih c1 (packets ++ [packet])
    refine ⟨c2, response :: responses, packet :: resent, ?_, by simp [hlens], ?_, ?_, ?_⟩
    · simp only [resend_all, hreq, hrun, List.append_assoc, List.singleton_append]
    · intro r hr
      rcases List.mem_cons.1 hr with rfl | hr
      · exact hlen
      · exact h17 r hr
    · simp [hp, hparse]
    · rw [hlog2, hlog]
      simp [round_trips]

theorem resend_all_faithful {σ : Type} (T : Transport σ) (hT : T.AnswersFaithfully) :
    ∀ (ns : List Int) (c : ABXClient σ) (packets : List Packet),
      ∃ c1 resent,
        resend_all T ns c packets = .ok (c1, packets ++ resent) ∧
        resent.map (fun packet => packet.sequence_number) =
          ns.map (fun n => ((static_cast_uint8 n).val : Int)) := by
  intro ns
  induction ns with
  | nil =>
    intro c packets
    exact ⟨c, [], by simp [resend_all], rfl⟩
  | cons n ns ih =>
    intro c packets
    obtain ⟨c1, packet, hreq, hseq⟩ := request_missing_faithful T hT n c packets
    obtain ⟨c2, resent, hrun, hseqs⟩ := ih c1 (packets ++ [packet])
    refine ⟨c2, packet :: resent, ?_, ?_⟩
    · simp only [resend_all, hreq, hrun, List.append_assoc, List.singleton_append]
    · simp [hseq, hseqs]

/-- Step 3 on a non-empty record set whose largest sequence number is below
`INT32_MAX`: one `request_missing` per missing number, ascending. -/
theorem handle_missing_sequences_eq {σ : Type} (T : Transport σ) (c : ABXClient σ)
    (packets : List Packet) (maxSeq : Int)
    (hmem : maxSeq ∈ packets.map (fun packet => packet.sequence_number))
    (hmax : ∀ s ∈ packets.map (fun packet => packet.sequence_number), s ≤ maxSeq)
    (hlt : maxSeq < INT32_MAX) :
    handle_missing_sequences T c packets =
      resend_all T (missing_between (packets.map (fun packet => packet.sequence_number)) 1 maxSeq)
        c packets := by
  unfold handle_missing_sequences
  simp only
  rw [gap_loop_eq T _ maxSeq (back_std_sort _ _ hmem hmax) hlt _ 1 c packets rfl,
    missing_between_std_sort]

theorem static_cast_uint8_of_range (n : Int) (h0 : 0 ≤ n) (h1 : n ≤ 255) :
    ((static_cast_uint8 n).val : Int) = n := by
  simp only [static_cast_uint8]
  omega

theorem parse_record_with_sequence (n : Nat) (h : n < 2 ^ 31) :
    parse_packet (record_with_sequence n) = .ok (packet_with_sequence n) := by
  rw [parse_packet_eq _ (by simp [record_with_sequence])]
  have hq : pack_int32 0 0 0 10 = 10 := by decide
  have hp : pack_int32 0 0 0 100 = 100 := by decide
  have hn : pack_int32 (Fin.ofNat (n / 2 ^ 24)) (Fin.ofNat (n / 2 ^ 16)) (Fin.ofNat (n / 2 ^ 8))
      (Fin.ofNat n) = (n : Int) := by
    rw [pack_int32_eq]
    have hu : be_unsigned [(Fin.ofNat (n / 2 ^ 24) : Byte), Fin.ofNat (n / 2 ^ 16),
        Fin.ofNat (n / 2 ^ 8), Fin.ofNat n] = n := by
      simp only [be_unsigned, List.foldl_cons, List.foldl_nil, Fin.ofNat]
      omega
    rw [hu, twos_complement32, if_pos h]
  simp only [record_with_sequence, List.getElem_cons_succ, List.getElem_cons_zero, hq, hp, hn]
  rfl

theorem mock_server_faithful (burst : List Byte) : (mock_server burst).AnswersFaithfully := by
  intro s n
  refine ⟨record_with_sequence n.val, record_with_sequence n.val, [], packet_with_sequence n.val,
    ?_, ?_, parse_record_with_sequence n.val (by omega), rfl⟩
  · simp [mock_server, create_resend_request, create_stream_request]
  · simp [mock_server, record_with_sequence]

/-- C4: from a record set whose sequence numbers are distinct and lie in `1..255`, with
largest number `maxSeq`, and a peer that answers every resend request `[2, n]` with a
record of sequence number `n`, step 3 returns a record set whose sequence numbers are
exactly the integers `1..maxSeq`, each once. -/
theorem reconcile_covers_range {σ : Type} (T : Transport σ) (hT : T.AnswersFaithfully)
    (c : ABXClient σ) (packets : List Packet) (maxSeq : Int)
    (hmem : maxSeq ∈ packets.map (fun packet => packet.sequence_number))
    (hmax : ∀ s ∈ packets.map (fun packet => packet.sequence_number), s ≤ maxSeq)
    (hnodup : (packets.map (fun packet => packet.sequence_number)).Nodup)
    (hrange : ∀ s ∈ packets.map (fun packet => packet.sequence_number), 1 ≤ s ∧ s ≤ 255) :
    ∃ c1 final, handle_missing_sequences T c packets = .ok (c1, final) ∧
      (final.map (fun packet => packet.sequence_number)).Nodup ∧
      ∀ n : Int, n ∈ final.map (fun packet => packet.sequence_number) ↔ 1 ≤ n ∧ n ≤ maxSeq := by
  have h255 : maxSeq ≤ 255 := (hrange maxSeq hmem).2
  obtain ⟨c1, resent, hrun, hseqs⟩ := resend_all_faithful T hT
    (missing_between (packets.map (fun packet => packet.sequence_number)) 1 maxSeq) c packets
  have hcast : (missing_between (packets.map (fun packet => packet.sequence_number)) 1
      maxSeq).map (fun n => ((static_cast_uint8 n).val : Int)) =
      missing_between (packets.map (fun packet => packet.sequence_number)) 1 maxSeq := by
    conv_rhs => rw [← List.map_id (missing_between _ 1 maxSeq)]
    apply List.map_congr_left
    intro n hn
    have := (mem_missing_between _ _ _ _).1 hn
    exact static_cast_uint8_of_range n (by omega) (by omega)
  rw [hcast] at hseqs
  refine ⟨c1, packets ++ resent, ?_, ?_, ?_⟩
  · rw [handle_missing_sequences_eq T c packets maxSeq hmem hmax
      (by unfold INT32_MAX; omega), hrun]
  · rw [List.map_append, hseqs, List.nodup_append]
    refine ⟨hnodup, (sorted_missing_between _ _ _).nodup, ?_⟩
    intro n h1 h2
    exact ((mem_missing_between _ _ _ _).1 h2).2.2 h1
  · intro n
    rw [List.map_append, hseqs, List.mem_append, mem_missing_between]
    constructor
    · rintro (h | h)
      · exact ⟨(hrange n h).1, hmax n h⟩
      · exact ⟨h.1, h.2.1⟩
    · rintro ⟨h1, h2⟩
      by_cases h : n ∈ packets.map (fun packet => packet.sequence_number)
      · exact Or.inl h
      · exact Or.inr ⟨h1, h2, h⟩

/-- The theorem `reconcile_covers_range` at the record set with sequence numbers
`1, 3, 5` over the mock peer. -/
theorem reconcile_covers_range_witness :
    ∃ c1 final,
      handle_missing_sequences (mock_server []) fresh_client
        [packet_with_sequence 1, packet_with_sequence 3, packet_with_sequence 5] =
        .ok (c1, final) ∧
      (final.map (fun packet => packet.sequence_number)).Nodup ∧
      ∀ n : Int, n ∈ final.map (fun packet => packet.sequence_number) ↔ 1 ≤ n ∧ n ≤ 5 :=
  reconcile_covers_range (mock_server []) (mock_server_faithful []) fresh_client
    [packet_with_sequence 1, packet_with_sequence 3, packet_with_sequence 5] 5
    (by decide) (by decide) (by decide) (by decide)

/-- On the record set `1, 3, 5` the mock run ends with the records `1, 3, 5, 2, 4`. -/
theorem reconcile_one_three_five :
    (handle_missing_sequences (mock_server []) fresh_client
      [packet_with_sequence 1, packet_with_sequence 3, packet_with_sequence 5]).map
        (fun r => r.2.map (fun packet => packet.sequence_number)) = .ok [1, 3, 5, 2, 4] := by
  rw [handle_missing_sequences_eq _ _ _ 5 (by decide) (by decide) (by decide)]
  decide

/-- C7: from a non-empty record set with largest sequence number `maxSeq ≤ 255` and a
peer that answers, the traffic of step 3 is one round-trip per integer of `[1, maxSeq]`
absent from the initial sequence numbers, in strictly ascending order, each once: the
request `[0x02, n]`, then its 17-byte response, then the next request. -/
theorem resend_requests_ascending {σ : Type} (T : Transport σ) (hT : T.Answers)
    (c : ABXClient σ) (packets : List Packet) (maxSeq : Int)
    (hmem : maxSeq ∈ packets.map (fun packet => packet.sequence_number))
    (hmax : ∀ s ∈ packets.map (fun packet => packet.sequence_number), s ≤ maxSeq)
    (h255 : maxSeq ≤ 255) :
    ∃ c1 final ns responses,
      handle_missing_sequences T c packets = .ok (c1, final) ∧
      (∀ n : Int, n ∈ ns ↔
        1 ≤ n ∧ n ≤ maxSeq ∧ n ∉ packets.map (fun packet => packet.sequence_number)) ∧
      ns.Sorted (· < ·) ∧
      (∀ n ∈ ns, (create_resend_request (static_cast_uint8 n)).map
        (fun b => (b.val : Int)) = [2, n]) ∧
      responses.length = ns.length ∧ (∀ r ∈ responses, r.length = 17) ∧
      c1.log = c.log ++ round_trips ns responses := by
  obtain ⟨c1, responses, resent, hrun, hlen, h17, _, hlog⟩ := resend_all_ok T hT
    (missing_between (packets.map (fun packet => packet.sequence_number)) 1 maxSeq) c packets
  refine ⟨c1, packets ++ resent, _, responses, ?_, mem_missing_between _ 1 maxSeq,
    sorted_missing_between _ _ _, ?_, hlen, h17, hlog⟩
  · rw [handle_missing_sequences_eq T c packets maxSeq hmem hmax
      (by unfold INT32_MAX; omega), hrun]
  · intro n hn
    have := (mem_missing_between _ _ _ _).1 hn
    simp only [create_resend_request, List.map_cons, List.map_nil,
      static_cast_uint8_of_range n (by omega) (by omega)]
    rfl

/-- The theorem `resend_requests_ascending` at the record set with sequence numbers
`1, 3, 5` over the mock peer. -/
theorem resend_requests_ascending_witness :
    ∃ c1 final ns responses,
      handle_missing_sequences (mock_server []) fresh_client
        [packet_with_sequence 1, packet_with_sequence 3, packet_with_sequence 5] =
        .ok (c1, final) ∧
      (∀ n : Int, n ∈ ns ↔ 1 ≤ n ∧ n ≤ 5 ∧
        n ∉ [packet_with_sequence 1, packet_with_sequence 3, packet_with_sequence 5].map
          (fun packet => packet.sequence_number)) ∧
      ns.Sorted (· < ·) ∧
      (∀ n ∈ ns, (create_resend_request (static_cast_uint8 n)).map
        (fun b => (b.val : Int)) = [2, n]) ∧
      responses.length = ns.length ∧ (∀ r ∈ responses, r.length = 17) ∧
      c1.log = fresh_client.log ++ round_trips ns responses :=
  resend_requests_ascending (mock_server []) (mock_server_faithful []).answers fresh_client
    [packet_with_sequence 1, packet_with_sequence 3, packet_with_sequence 5] 5
    (by decide) (by decide) (by decide)

theorem resend_count_round_trips :
    ∀ (ns : List Int) (responses : List (List Byte)), responses.length = ns.length →
      resend_count (round_trips ns responses) = ns.length := by
  intro ns
  induction ns with
  | nil => intro responses _; simp [round_trips, resend_count]
  | cons n ns ih =>
    intro responses h
    cases responses with
    | nil => simp at h
    | cons r rs =>
      have := ih rs (by simpa using h)
      simp only [round_trips, resend_count, List.zipWith_cons_cons, List.flatten_cons,
        List.countP_append, List.length_cons] at this ⊢
      rw [this]
      simp [List.countP_cons, Event.is_resend, create_resend_request]
      omega

theorem length_missing_between (seqs : List Int) (maxSeq : Int)
    (hrange : ∀ s ∈ seqs, 1 ≤ s ∧ s ≤ maxSeq) (hpos : 0 ≤ maxSeq) :
    ((missing_between seqs 1 maxSeq).length : Int) = maxSeq - (seqs.toFinset.card : Int) := by
  have hset : (missing_between seqs 1 maxSeq).toFinset = Finset.Icc 1 maxSeq \ seqs.toFinset := by
    ext n
    simp only [List.mem_toFinset, mem_missing_between, Finset.mem_sdiff, Finset.mem_Icc]
    tauto
  have hsub : seqs.toFinset ⊆ Finset.Icc 1 maxSeq := by
    intro n hn
    rw [Finset.mem_Icc]
    exact hrange n (List.mem_toFinset.1 hn)
  have hcard := List.toFinset_card_of_nodup (sorted_missing_between seqs 1 maxSeq).nodup
  rw [hset, Finset.card_sdiff hsub, Int.card_Icc] at hcard
  have hle := Finset.card_le_card hsub
  rw [Int.card_Icc] at hle
  omega

/-- C8, as the source has it: from a non-empty record set with largest sequence number
`maxSeq < INT32_MAX` and a peer that answers, step 3 performs as many resend
round-trips as there are integers of `[1, maxSeq]` outside `present`; that number is
`maxSeq - |present|` when every initial sequence number is at least 1. -/
theorem round_trip_count {σ : Type} (T : Transport σ) (hT : T.Answers)
    (c : ABXClient σ) (packets : List Packet) (maxSeq : Int)
    (hmem : maxSeq ∈ packets.map (fun packet => packet.sequence_number))
    (hmax : ∀ s ∈ packets.map (fun packet => packet.sequence_number), s ≤ maxSeq)
    (hlt : maxSeq < INT32_MAX) :
    ∃ c1 final trips,
      handle_missing_sequences T c packets = .ok (c1, final) ∧ c1.log = c.log ++ trips ∧
      resend_count trips = (Finset.Icc 1 maxSeq \ present packets).card ∧
      ((∀ s ∈ packets.map (fun packet => packet.sequence_number), 1 ≤ s) →
        (resend_count trips : Int) = maxSeq - ((present packets).card : Int)) := by
  obtain ⟨c1, responses, resent, hrun, hlen, _, _, hlog⟩ := resend_all_ok T hT
    (missing_between (packets.map (fun packet => packet.sequence_number)) 1 maxSeq) c packets
  refine ⟨c1, packets ++ resent, _, ?_, hlog, ?_, ?_⟩
  · rw [handle_missing_sequences_eq T c packets maxSeq hmem hmax hlt, hrun]
  · rw [resend_count_round_trips _ _ hlen,
      ← List.toFinset_card_of_nodup (sorted_missing_between _ 1 maxSeq).nodup]
    congr 1
    ext n
    simp only [List.mem_toFinset, mem_missing_between, Finset.mem_sdiff, Finset.mem_Icc,
      present]
    tauto
  · intro hpos
    rw [resend_count_round_trips _ _ hlen]
    exact length_missing_between _ maxSeq (fun s hs => ⟨hpos s hs, hmax s hs⟩)
      (by have := hpos maxSeq hmem; omega)

/-- The theorem `round_trip_count` at the record set with sequence numbers `1, 3, 5`
over the mock peer. -/
theorem round_trip_count_witness :
    ∃ c1 final trips,
      handle_missing_sequences (mock_server []) fresh_client
        [packet_with_sequence 1, packet_with_sequence 3, packet_with_sequence 5] =
        .ok (c1, final) ∧ c1.log = fresh_client.log ++ trips ∧
      resend_count trips = (Finset.Icc 1 5 \ present
        [packet_with_sequence 1, packet_with_sequence 3, packet_with_sequence 5]).card ∧
      ((∀ s ∈ [packet_with_sequence 1, packet_with_sequence 3, packet_with_sequence 5].map
          (fun packet => packet.sequence_number), 1 ≤ s) →
        (resend_count trips : Int) = 5 - ((present
          [packet_with_sequence 1, packet_with_sequence 3, packet_with_sequence 5]).card : Int)) :=
  round_trip_count (mock_server []) (mock_server_faithful []).answers fresh_client
    [packet_with_sequence 1, packet_with_sequence 3, packet_with_sequence 5] 5
    (by decide) (by decide) (by decide)

/-- C8 fails as stated: from the record set with sequence numbers `0, 2` the run
performs one resend round-trip (for 1), while `maxSeq - |present| = 2 - 2 = 0`. -/
theorem round_trip_count_zero_two :
    (handle_missing_sequences (mock_server []) fresh_client
      [packet_with_sequence 0, packet_with_sequence 2]).map
        (fun r => resend_count r.1.log) = .ok 1 ∧
    (2 : Int) - ((present [packet_with_sequence 0, packet_with_sequence 2]).card : Int) = 0 := by
  rw [handle_missing_sequences_eq _ _ _ 2 (by decide) (by decide) (by decide)]
  decide

/-- C9, as the source has it: the record sequence left by step 3 is in arrival order,
the initial records unchanged in front, then the resent records; with a peer that
answers `[2, n]` by the record numbered `n` and `maxSeq ≤ 255`, the resent records are
exactly the missing numbers of `[1, maxSeq]` in strictly ascending order. -/
theorem final_records_arrival_order {σ : Type} (T : Transport σ) (hT : T.AnswersFaithfully)
    (c : ABXClient σ) (packets : List Packet) (maxSeq : Int)
    (hmem : maxSeq ∈ packets.map (fun packet => packet.sequence_number))
    (hmax : ∀ s ∈ packets.map (fun packet => packet.sequence_number), s ≤ maxSeq)
    (h255 : maxSeq ≤ 255) :
    ∃ c1 resent, handle_missing_sequences T c packets = .ok (c1, packets ++ resent) ∧
      (resent.map (fun packet => packet.sequence_number)).Sorted (· < ·) ∧
      ∀ n : Int, n ∈ resent.map (fun packet => packet.sequence_number) ↔
        1 ≤ n ∧ n ≤ maxSeq ∧ n ∉ packets.map (fun packet => packet.sequence_number) := by
  obtain ⟨c1, resent, hrun, hseqs⟩ := resend_all_faithful T hT
    (missing_between (packets.map (fun packet => packet.sequence_number)) 1 maxSeq) c packets
  have hcast : (missing_between (packets.map (fun packet => packet.sequence_number)) 1
      maxSeq).map (fun n => ((static_cast_uint8 n).val : Int)) =
      missing_between (packets.map (fun packet => packet.sequence_number)) 1 maxSeq := by
    conv_rhs => rw [← List.map_id (missing_between _ 1 maxSeq)]
    apply List.map_congr_left
    intro n hn
    have := (mem_missing_between _ _ _ _).1 hn
    exact static_cast_uint8_of_range n (by omega) (by omega)
  rw [hcast] at hseqs
  refine ⟨c1, resent, ?_, ?_, ?_⟩
  · rw [handle_missing_sequences_eq T c packets maxSeq hmem hmax
      (by unfold INT32_MAX; omega), hrun]
  · rw [hseqs]; exact sorted_missing_between _ _ _
  · intro n; rw [hseqs]; exact mem_missing_between _ _ _ _

/-- The theorem `final_records_arrival_order` at the record set with sequence numbers
`1, 3` over the mock peer. -/
theorem final_records_arrival_order_witness :
    ∃ c1 resent,
      handle_missing_sequences (mock_server []) fresh_client
        [packet_with_sequence 1, packet_with_sequence 3] =
        .ok (c1, [packet_with_sequence 1, packet_with_sequence 3] ++ resent) ∧
      (resent.map (fun packet => packet.sequence_number)).Sorted (· < ·) ∧
      ∀ n : Int, n ∈ resent.map (fun packet => packet.sequence_number) ↔
        1 ≤ n ∧ n ≤ 3 ∧ n ∉ [packet_with_sequence 1, packet_with_sequence 3].map
          (fun packet => packet.sequence_number) :=
  final_records_arrival_order (mock_server []) (mock_server_faithful []) fresh_client
    [packet_with_sequence 1, packet_with_sequence 3] 3 (by decide) (by decide) (by decide)

/-! ## The session over the mock peer -/

theorem split_loop_burst (pad : List Byte) (hpad : pad.length < 17) :
    ∀ (seqs : List Nat) (pre : List Byte) (packets : List Packet),
      (∀ n ∈ seqs, n < 2 ^ 31) →
      split_loop (pre ++ burst_of seqs pad) pre.length packets =
        .ok (packets ++ seqs.map (fun (n : Nat) => packet_with_sequence (n : Int))) := by
  intro seqs
  induction seqs with
  | nil =>
    intro pre packets _
    rw [split_loop, if_neg (by simp [burst_of]; omega)]
    simp
  | cons n seqs ih =>
    intro pre packets hn
    have hrec : (record_with_sequence n).length = 17 := by simp [record_with_sequence]
    have hsplit : pre ++ burst_of (n :: seqs) pad =
        (pre ++ record_with_sequence n) ++ burst_of seqs pad := by
      simp [burst_of]
    have hslice : slice (pre ++ burst_of (n :: seqs) pad) pre.length (pre.length + 17) =
        record_with_sequence n := by
      simp only [slice, burst_of, List.map_cons, List.flatten_cons, List.append_assoc,
        List.drop_left, Nat.add_sub_cancel_left]
      rw [← hrec, List.take_left]
    rw [split_loop, if_pos (by simp [burst_of, hrec]), hslice,
      parse_record_with_sequence n (hn n (List.mem_cons_self _ _))]
    simp only
    have := ih (pre ++ record_with_sequence n) (packets ++ [packet_with_sequence n])
      (fun m hm => hn m (List.mem_cons_of_mem _ hm))
    rw [List.length_append, hrec] at this
    rw [hsplit, this]
    simp

theorem split_records_burst (seqs : List Nat) (pad : List Byte) (hpad : pad.length < 17)
    (hn : ∀ n ∈ seqs, n < 2 ^ 31) :
    split_records (burst_of seqs pad) = .ok (seqs.map (fun (n : Nat) => packet_with_sequence (n : Int))) := by
  have := split_loop_burst pad hpad seqs [] [] hn
  simpa [split_records] using this

/-- The run of `session` over the mock peer with a burst of exactly 1024 bytes, up to
step 3. -/
theorem session_mock_server (seqs : List Nat) (pad : List Byte) (hpad : pad.length < 17)
    (hn : ∀ n ∈ seqs, n < 2 ^ 31) (hlen : (burst_of seqs pad).length = 1024) :
    session (mock_server (burst_of seqs pad)) fresh_client =
      handle_missing_sequences (mock_server (burst_of seqs pad))
        { socket := [], log := [Event.sent create_stream_request,
            Event.received (burst_of seqs pad)] }
        (seqs.map (fun (n : Nat) => packet_with_sequence (n : Int))) := by
  have hconnect : ∀ s, (mock_server (burst_of seqs pad)).connect s = some s := fun _ => rfl
  have hclose : ∀ s, (mock_server (burst_of seqs pad)).close s = some s := fun _ => rfl
  have hwrite : (mock_server (burst_of seqs pad)).write [] create_stream_request =
      some (burst_of seqs pad) := by
    simp [mock_server]
  have hread : (mock_server (burst_of seqs pad)).read (burst_of seqs pad) 1024 =
      some (burst_of seqs pad, []) := by
    simp only [mock_server, hlen, le_refl, if_true]
    rw [← hlen, List.take_length, List.drop_length]
  simp only [session, ABXClient.connect, ABXClient.send_request, ABXClient.receive_response,
    ABXClient.close, fresh_client, hconnect, hclose, hwrite, hread, bind, Except.bind,
    split_records_burst seqs pad hpad hn, List.nil_append, List.cons_append]
  generalize handle_missing_sequences (mock_server (burst_of seqs pad))
    { socket := [], log := [Event.sent create_stream_request,
        Event.received (burst_of seqs pad)] }
    (seqs.map (fun (n : Nat) => packet_with_sequence (n : Int))) = r
  cases r with
  | error f => rfl
  | ok r => rfl

theorem mem_round_trips (n : Int) :
    ∀ (ns : List Int) (responses : List (List Byte)), responses.length = ns.length → n ∈ ns →
      Event.sent (create_resend_request (static_cast_uint8 n)) ∈ round_trips ns responses := by
  intro ns
  induction ns with
  | nil => intro responses _ h; cases h
  | cons m ns ih =>
    intro responses hlen h
    cases responses with
    | nil => simp at hlen
    | cons r rs =>
      simp only [round_trips, List.zipWith_cons_cons, List.flatten_cons, List.mem_append]
      rcases List.mem_cons.1 h with rfl | h
      · left; simp
      · right; exact ih rs (by simpa using hlen) h

set_option maxRecDepth 100000

/-- C5, on the source: a session over the mock peer whose initial burst carries the
sixty records numbered `1 .. 59` and `301`. Step 3 finds `300` missing and sends the
request `[0x02, 44]`, the number narrowed to one byte; the run completes without error
and no record numbered `300` is in the final record set. -/
theorem session_resend_wraps :
    ∃ c1 final,
      session (mock_server (burst_of (sixty_with_last 301) [0, 0, 0, 0])) fresh_client =
        .ok (c1, final) ∧
      create_resend_request (static_cast_uint8 300) = [2, 44] ∧
      Event.sent [2, 44] ∈ c1.log ∧
      (300 : Int) ∉ final.map (fun packet => packet.sequence_number) := by
  rw [session_mock_server _ _ (by decide) (by decide) (by decide),
    handle_missing_sequences_eq _ _ _ 301 (by decide) (by decide) (by decide)]
  obtain ⟨c1, responses, resent, hrun, hlen, _, _, hlog⟩ := resend_all_ok
    (mock_server (burst_of (sixty_with_last 301) [0, 0, 0, 0]))
    (mock_server_faithful _).answers
    (missing_between (((sixty_with_last 301).map
      (fun (n : Nat) => packet_with_sequence (n : Int))).map
      (fun packet => packet.sequence_number)) 1 301)
    { socket := [], log := [Event.sent create_stream_request,
        Event.received (burst_of (sixty_with_last 301) [0, 0, 0, 0])] }
    ((sixty_with_last 301).map (fun (n : Nat) => packet_with_sequence (n : Int)))
  obtain ⟨c2, resent2, hrun2, hseqs⟩ := resend_all_faithful
    (mock_server (burst_of (sixty_with_last 301) [0, 0, 0, 0]))
    (mock_server_faithful _)
    (missing_between (((sixty_with_last 301).map
      (fun (n : Nat) => packet_with_sequence (n : Int))).map
      (fun packet => packet.sequence_number)) 1 301)
    { socket := [], log := [Event.sent create_stream_request,
        Event.received (burst_of (sixty_with_last 301) [0, 0, 0, 0])] }
    ((sixty_with_last 301).map (fun (n : Nat) => packet_with_sequence (n : Int)))
  have hsame : resent2 = resent := by
    have := hrun2.symm.trans hrun
    simp only [Except.ok.injEq, Prod.mk.injEq, List.append_cancel_left_eq] at this
    exact this.2
  subst hsame
  refine ⟨c1, _, hrun, by decide, ?_, ?_⟩
  · rw [hlog]
    apply List.mem_append_right
    exact mem_round_trips 300 _ _ hlen ((mem_missing_between _ _ _ _).2 (by decide))
  · rw [List.map_append, hseqs]
    decide

/-- C9 fails as stated: from the records numbered `1, 3` step 3 over the mock peer
leaves the records in the order `1, 3, 2`; and a whole session whose burst carries the
records numbered `1 .. 59` and `61` hands over `1, .., 59, 61, 60`. -/
theorem final_order_not_ascending :
    (handle_missing_sequences (mock_server []) fresh_client
      [packet_with_sequence 1, packet_with_sequence 3]).map
        (fun r => r.2.map (fun packet => packet.sequence_number)) = .ok [1, 3, 2] ∧
    (session (mock_server (burst_of (sixty_with_last 61) [0, 0, 0, 0])) fresh_client).map
        (fun r => r.2.map (fun packet => packet.sequence_number)) =
      .ok ((sixty_with_last 61).map (fun (n : Nat) => (n : Int)) ++ [60]) := by
  constructor
  · rw [handle_missing_sequences_eq _ _ _ 3 (by decide) (by decide) (by decide)]
    decide
  · rw [session_mock_server _ _ (by decide) (by decide) (by decide),
      handle_missing_sequences_eq _ _ _ 61 (by decide) (by decide) (by decide)]
    decide

/-! ## Injectivity of the decoder and the two request kinds -/

theorem pack_int32_injective (a0 a1 a2 a3 b0 b1 b2 b3 : Byte)
    (h : pack_int32 a0 a1 a2 a3 = pack_int32 b0 b1 b2 b3) :
    a0 = b0 ∧ a1 = b1 ∧ a2 = b2 ∧ a3 = b3 := by
  rw [pack_int32_eq, pack_int32_eq] at h
  simp only [be_unsigned, List.foldl_cons, List.foldl_nil, twos_complement32] at h
  have ha0 := a0.isLt
  have ha1 := a1.isLt
  have ha2 := a2.isLt
  have ha3 := a3.isLt
  have hb0 := b0.isLt
  have hb1 := b1.isLt
  have hb2 := b2.isLt
  have hb3 := b3.isLt
  have hval : a0.val = b0.val ∧ a1.val = b1.val ∧ a2.val = b2.val ∧ a3.val = b3.val := by
    split at h <;> split at h <;> omega
  exact ⟨Fin.ext hval.1, Fin.ext hval.2.1, Fin.ext hval.2.2.1, Fin.ext hval.2.2.2⟩

/-- C11: `parse_packet` is injective on buffers of exactly seventeen bytes: two such
buffers that decode to the same packet, field by field, are equal. -/
theorem parse_packet_injective (a b : List Byte) (ha : a.length = 17) (hb : b.length = 17)
    (h : parse_packet a = parse_packet b) : a = b := by
  rw [parse_packet_eq a (by omega), parse_packet_eq b (by omega)] at h
  simp only [Except.ok.injEq, Packet.mk.injEq, List.cons.injEq, and_true] at h
  obtain ⟨⟨h0, h1, h2, h3⟩, h4, hq, hp, hn⟩ := h
  obtain ⟨h5, h6, h7, h8⟩ := pack_int32_injective _ _ _ _ _ _ _ _ hq
  obtain ⟨h9, h10, h11, h12⟩ := pack_int32_injective _ _ _ _ _ _ _ _ hp
  obtain ⟨h13, h14, h15, h16⟩ := pack_int32_injective _ _ _ _ _ _ _ _ hn
  apply List.ext_getElem (by omega)
  intro i hi1 hi2
  have hi : i < 17 := by omega
  interval_cases i <;> assumption

/-- The theorem `parse_packet_injective` at `sample_record` against itself rebuilt from
its two halves. -/
theorem parse_packet_injective_witness :
    sample_record.length = 17 ∧ (sample_record.take 9 ++ sample_record.drop 9).length = 17 ∧
    parse_packet sample_record = parse_packet (sample_record.take 9 ++ sample_record.drop 9) ∧
    sample_record = sample_record.take 9 ++ sample_record.drop 9 :=
  ⟨by decide, by decide, by decide,
    parse_packet_injective sample_record (sample_record.take 9 ++ sample_record.drop 9)
      (by decide) (by decide) (by decide)⟩

/-- C13: `create_stream_request` returns exactly the one byte `0x01`, and differs from
every resend request both in length and in first byte. -/
theorem create_stream_request_bytes (n : Byte) :
    create_stream_request = [1] ∧
    create_stream_request.length = 1 ∧ (create_resend_request n).length = 2 ∧
    create_stream_request.head? = some 1 ∧ (create_resend_request n).head? = some 2 ∧
    create_stream_request.length ≠ (create_resend_request n).length ∧
    create_stream_request.head? ≠ (create_resend_request n).head? := by
  refine ⟨rfl, rfl, rfl, rfl, rfl, ?_, ?_⟩ <;>
    simp [create_stream_request, create_resend_request]

/-! ## Step 3 only appends -/

theorem request_missing_inv {σ : Type} (T : Transport σ) (n : Int) (c c1 : ABXClient σ)
    (packets packets1 : List Packet)
    (h : request_missing T n c packets = .ok (c1, packets1)) :
    ∃ response packet, packets1 = packets ++ [packet] ∧ parse_packet response = .ok packet ∧
      response.length = 17 ∧
      c1.log = c.log ++ [Event.sent (create_resend_request (static_cast_uint8 n)),
        Event.received response] := by
  simp only [request_missing, ABXClient.send_request, ABXClient.receive_response] at h
  cases hw : T.write c.socket (create_resend_request (static_cast_uint8 n)) with
  | none => simp [hw] at h
  | some s1 =>
    simp only [hw] at h
    cases hr : T.read s1 17 with
    | none => simp [hr] at h
    | some r =>
      obtain ⟨response, s2⟩ := r
      simp only [hr] at h
      cases hp : parse_packet response with
      | error f => simp [hp] at h
      | ok packet =>
        simp only [hp, Except.ok.injEq, Prod.mk.injEq] at h
        refine ⟨response, packet, h.2.symm, hp, T.read_length _ _ _ _ hr, ?_⟩
        rw [← h.1]
        simp

theorem round_trips_cons (n : Int) (ns : List Int) (r : List Byte) (rs : List (List Byte)) :
    round_trips (n :: ns) (r :: rs) =
      [Event.sent (create_resend_request (static_cast_uint8 n)), Event.received r] ++
        round_trips ns rs := by
  simp [round_trips]

theorem gap_loop_appends {σ : Type} (T : Transport σ) (rs : List Int) :
    ∀ (k : Nat) (e : Int) (c c1 : ABXClient σ) (packets final : List Packet),
      (INT32_MAX + 1 - e).toNat = k →
      gap_loop T rs e c packets = .ok (c1, final) →
      ∃ resent ns responses, final = packets ++ resent ∧
        c1.log = c.log ++ round_trips ns responses ∧
        ns.length = resent.length ∧ responses.length = resent.length ∧
        responses.map parse_packet = resent.map Except.ok := by
  intro k
  induction k with
  | zero =>
    intro e c c1 packets final hk h
    rw [gap_loop] at h
    cases hb : back rs with
    | error f => simp [hb] at h
    | ok last =>
      simp only [hb] at h
      by_cases hle : e ≤ last
      · simp only [hle, if_true] at h
        have hover : INT32_MAX ≤ e := by omega
        split at h
        · cases h
        · simp [hover] at h
      · simp only [hle, if_false, Except.ok.injEq, Prod.mk.injEq] at h
        exact ⟨[], [], [], by simp [h.2], by simp [round_trips, h.1], rfl, rfl, rfl⟩
  | succ k ih =>
    intro e c c1 packets final hk h
    rw [gap_loop] at h
    cases hb : back rs with
    | error f => simp [hb] at h
    | ok last =>
      simp only [hb] at h
      by_cases hle : e ≤ last
      · simp only [hle, if_true] at h
        by_cases hover : INT32_MAX ≤ e
        · split at h
          · cases h
          · simp [hover] at h
        by_cases hmem : e ∈ rs
        · simp only [hmem, if_true, hover, if_false] at h
          exact ih (e + 1) c c1 packets final (by omega) h
        · simp only [hmem, if_false] at h
          cases hreq : request_missing T e c packets with
          | error f => simp [hreq] at h
          | ok st =>
            obtain ⟨c2, packets2⟩ := st
            simp only [hreq, hover, if_false] at h
            obtain ⟨response, packet, hp2, hparse, _, hlog2⟩ :=
              request_missing_inv T e c c2 packets packets2 hreq
            obtain ⟨resent, ns, responses, hfinal, hlog, hn, hr, hdec⟩ :=
              ih (e + 1) c2 c1 packets2 final (by omega) h
            refine ⟨packet :: resent, e :: ns, response :: responses, ?_, ?_, by simp [hn],
              by simp [hr], by simp [hparse, hdec]⟩
            · rw [hfinal, hp2]; simp
            · rw [hlog, hlog2, round_trips_cons]; simp
      · simp only [hle, if_false, Except.ok.injEq, Prod.mk.injEq] at h
        exact ⟨[], [], [], by simp [h.2], by simp [round_trips, h.1], rfl, rfl, rfl⟩

/-- C12: whatever the peer does, a run of step 3 that completes only appends: the final
record set is the initial one, unchanged and in front, followed by one packet per
completed resend round-trip (request sent, seventeen bytes received and decoded), so
the final length is the initial length plus the number of those round-trips. -/
theorem reconcile_only_appends {σ : Type} (T : Transport σ) (c c1 : ABXClient σ)
    (packets final : List Packet)
    (h : handle_missing_sequences T c packets = .ok (c1, final)) :
    ∃ resent ns responses, final = packets ++ resent ∧
      c1.log = c.log ++ round_trips ns responses ∧
      ns.length = resent.length ∧ responses.length = resent.length ∧
      responses.map parse_packet = resent.map Except.ok ∧
      final.length = packets.length + resend_count (round_trips ns responses) := by
  obtain ⟨resent, ns, responses, hfinal, hlog, hn, hr, hdec⟩ :=
    gap_loop_appends T _ _ 1 c c1 packets final rfl h
  refine ⟨resent, ns, responses, hfinal, hlog, hn, hr, hdec, ?_⟩
  rw [resend_count_round_trips ns responses (by omega), hfinal, List.length_append, hn]

/-- The theorem `reconcile_only_appends` at the completed run from the record set
`1, 3, 5` over the mock peer. -/
theorem reconcile_only_appends_witness :
    handle_missing_sequences (mock_server []) fresh_client
      [packet_with_sequence 1, packet_with_sequence 3, packet_with_sequence 5] =
      .ok ({ socket := [], log := round_trips [2, 4]
              [record_with_sequence 2, record_with_sequence 4] },
           [packet_with_sequence 1, packet_with_sequence 3, packet_with_sequence 5,
            packet_with_sequence 2, packet_with_sequence 4]) ∧
    ∃ resent ns responses,
      [packet_with_sequence 1, packet_with_sequence 3, packet_with_sequence 5,
        packet_with_sequence 2, packet_with_sequence 4] =
        [packet_with_sequence 1, packet_with_sequence 3, packet_with_sequence 5] ++ resent ∧
      round_trips [2, 4] [record_with_sequence 2, record_with_sequence 4] =
        fresh_client.log ++ round_trips ns responses ∧
      ns.length = resent.length ∧ responses.length = resent.length ∧
      responses.map parse_packet = resent.map Except.ok ∧
      [packet_with_sequence 1, packet_with_sequence 3, packet_with_sequence 5,
        packet_with_sequence 2, packet_with_sequence 4].length =
        [packet_with_sequence 1, packet_with_sequence 3, packet_with_sequence 5].length +
          resend_count (round_trips ns responses) :=
  have h : handle_missing_sequences (mock_server []) fresh_client
      [packet_with_sequence 1, packet_with_sequence 3, packet_with_sequence 5] =
      .ok ({ socket := [], log := round_trips [2, 4]
              [record_with_sequence 2, record_with_sequence 4] },
           [packet_with_sequence 1, packet_with_sequence 3, packet_with_sequence 5,
            packet_with_sequence 2, packet_with_sequence 4]) := by
    rw [handle_missing_sequences_eq _ _ _ 5 (by decide) (by decide) (by decide)]
    rfl
  ⟨h, reconcile_only_appends (mock_server []) fresh_client _ _ _ h⟩

/-! ## The set of present numbers is fixed before the loop -/

theorem sent_requests_round_trips :
    ∀ (ns : List Int) (responses : List (List Byte)), responses.length = ns.length →
      sent_requests (round_trips ns responses) =
        ns.map (fun n => create_resend_request (static_cast_uint8 n)) := by
  intro ns
  induction ns with
  | nil => intro responses _; simp [round_trips, sent_requests]
  | cons n ns ih =>
    intro responses h
    cases responses with
    | nil => simp at h
    | cons r rs =>
      have := ih rs (by simpa using h)
      rw [round_trips_cons]
      simp only [sent_requests, List.filterMap_append, List.map_cons] at this ⊢
      rw [this]
      simp [List.filterMap_cons]

/-- C15, as the source has it: `received_sequences` is filled before the loop and never
updated. With `maxSeq ≤ 255` and a peer that answers, the resend requests sent by step 3
are exactly the requests `[0x02, n]` for the integers `n` of `[1, maxSeq]` absent from
the initial sequence numbers, strictly ascending, one each, whatever sequence numbers
the responses carry. -/
theorem resend_requests_from_initial_set {σ : Type} (T : Transport σ) (hT : T.Answers)
    (c : ABXClient σ) (packets : List Packet) (maxSeq : Int)
    (hmem : maxSeq ∈ packets.map (fun packet => packet.sequence_number))
    (hmax : ∀ s ∈ packets.map (fun packet => packet.sequence_number), s ≤ maxSeq)
    (h255 : maxSeq ≤ 255) :
    ∃ c1 final trips, ∃ ns : List Int,
      handle_missing_sequences T c packets = .ok (c1, final) ∧ c1.log = c.log ++ trips ∧
      (∀ n : Int, n ∈ ns ↔
        1 ≤ n ∧ n ≤ maxSeq ∧ n ∉ packets.map (fun packet => packet.sequence_number)) ∧
      ns.Sorted (· < ·) ∧
      (sent_requests trips).map (fun request => request.map (fun b => (b.val : Int))) =
        ns.map (fun n => [2, n]) := by
  obtain ⟨c1, responses, resent, hrun, hlen, _, _, hlog⟩ := resend_all_ok T hT
    (missing_between (packets.map (fun packet => packet.sequence_number)) 1 maxSeq) c packets
  refine ⟨c1, packets ++ resent, _, _, ?_, hlog, mem_missing_between _ 1 maxSeq,
    sorted_missing_between _ _ _, ?_⟩
  · rw [handle_missing_sequences_eq T c packets maxSeq hmem hmax
      (by unfold INT32_MAX; omega), hrun]
  · rw [sent_requests_round_trips _ _ hlen, List.map_map]
    apply List.map_congr_left
    intro n hn
    have := (mem_missing_between _ _ _ _).1 hn
    simp only [Function.comp_apply, create_resend_request, List.map_cons, List.map_nil,
      static_cast_uint8_of_range n (by omega) (by omega)]
    rfl

theorem skewed_server_answers (burst : List Byte) : (skewed_server burst).Answers := by
  intro s n
  refine ⟨record_with_sequence (n.val + 2), record_with_sequence (n.val + 2), [], ?_, ?_⟩
  · simp [skewed_server, create_resend_request, create_stream_request]
  · simp [skewed_server, record_with_sequence]

/-- The theorem `resend_requests_from_initial_set` at the record set `1, 3, 5` over the
peer that answers the resend for `n` with record `n + 2`. -/
theorem resend_requests_from_initial_set_witness :
    ∃ c1 final trips, ∃ ns : List Int,
      handle_missing_sequences (skewed_server []) fresh_client
        [packet_with_sequence 1, packet_with_sequence 3, packet_with_sequence 5] =
        .ok (c1, final) ∧ c1.log = fresh_client.log ++ trips ∧
      (∀ n : Int, n ∈ ns ↔ 1 ≤ n ∧ n ≤ 5 ∧
        n ∉ [packet_with_sequence 1, packet_with_sequence 3, packet_with_sequence 5].map
          (fun packet => packet.sequence_number)) ∧
      ns.Sorted (· < ·) ∧
      (sent_requests trips).map (fun request => request.map (fun b => (b.val : Int))) =
        ns.map (fun n => [2, n]) :=
  resend_requests_from_initial_set (skewed_server []) (skewed_server_answers []) fresh_client
    [packet_with_sequence 1, packet_with_sequence 3, packet_with_sequence 5] 5
    (by decide) (by decide) (by decide)

/-- The run of `session` over the skewed peer with a burst of exactly 1024 bytes, up to
step 3. -/
theorem session_skewed_server (seqs : List Nat) (pad : List Byte) (hpad : pad.length < 17)
    (hn : ∀ n ∈ seqs, n < 2 ^ 31) (hlen : (burst_of seqs pad).length = 1024) :
    session (skewed_server (burst_of seqs pad)) fresh_client =
      handle_missing_sequences (skewed_server (burst_of seqs pad))
        { socket := [], log := [Event.sent create_stream_request,
            Event.received (burst_of seqs pad)] }
        (seqs.map (fun (n : Nat) => packet_with_sequence (n : Int))) := by
  have hconnect : ∀ s, (skewed_server (burst_of seqs pad)).connect s = some s := fun _ => rfl
  have hclose : ∀ s, (skewed_server (burst_of seqs pad)).close s = some s := fun _ => rfl
  have hwrite : (skewed_server (burst_of seqs pad)).write [] create_stream_request =
      some (burst_of seqs pad) := by
    simp [skewed_server]
  have hread : (skewed_server (burst_of seqs pad)).read (burst_of seqs pad) 1024 =
      some (burst_of seqs pad, []) := by
    simp only [skewed_server, hlen, le_refl, if_true]
    rw [← hlen, List.take_length, List.drop_length]
  simp only [session, ABXClient.connect, ABXClient.send_request, ABXClient.receive_response,
    ABXClient.close, fresh_client, hconnect, hclose, hwrite, hread, bind, Except.bind,
    split_records_burst seqs pad hpad hn, List.nil_append, List.cons_append]
  generalize handle_missing_sequences (skewed_server (burst_of seqs pad))
    { socket := [], log := [Event.sent create_stream_request,
        Event.received (burst_of seqs pad)] }
    (seqs.map (fun (n : Nat) => packet_with_sequence (n : Int))) = r
  cases r with
  | error f => rfl
  | ok r => rfl

/-- C15 fails as stated: from the record set `1, 3, 5`, with a peer whose response to
the resend for `2` carries sequence number `4`, the resend for `4` is sent all the
same, and the run ends with the sequence numbers `1, 3, 5, 4, 6`. Likewise in a whole
session whose burst carries the records numbered `1 .. 58`, `60` and `62`: the response
to the resend for `59` carries `61`, and the resend for `61` is still sent. -/
theorem resend_sent_for_supplied_number :
    (handle_missing_sequences (skewed_server []) fresh_client
      [packet_with_sequence 1, packet_with_sequence 3, packet_with_sequence 5]).map
        (fun r => (sent_requests r.1.log, r.2.map (fun packet => packet.sequence_number))) =
      .ok ([[2, 2], [2, 4]], [1, 3, 5, 4, 6]) ∧
    (session (skewed_server (burst_of (sixty_with_last_two 60 62) [0, 0, 0, 0]))
      fresh_client).map
        (fun r => (sent_requests r.1.log, r.2.map (fun packet => packet.sequence_number))) =
      .ok ([[1], [2, 59], [2, 61]],
        (sixty_with_last_two 60 62).map (fun (n : Nat) => (n : Int)) ++ [61, 63]) := by
  constructor
  · rw [handle_missing_sequences_eq _ _ _ 5 (by decide) (by decide) (by decide)]
    decide
  · rw [session_skewed_server _ _ (by decide) (by decide) (by decide),
      handle_missing_sequences_eq _ _ _ 62 (by decide) (by decide) (by decide)]
    decide

/-! ## The exit status of `main` -/

/-- Every completed run of `main` has exit status 0. -/
theorem main_exit_code {σ : Type} (T : Transport σ) (c : ABXClient σ) (out : Outcome)
    (h : main T c = .ok out) : out.exit_code = 0 := by
  unfold main at h
  split at h
  · cases h; rfl
  · cases h
  · split at h
    · cases h; rfl
    · cases h
    · cases h; rfl

theorem collect_packets_mock_server (seqs : List Nat) (pad : List Byte)
    (hpad : pad.length < 17) (hn : ∀ n ∈ seqs, n < 2 ^ 31)
    (hlen : (burst_of seqs pad).length = 1024) :
    collect_packets (mock_server (burst_of seqs pad)) fresh_client =
      handle_missing_sequences (mock_server (burst_of seqs pad))
        { socket := [], log := [Event.sent create_stream_request,
            Event.received (burst_of seqs pad)] }
        (seqs.map (fun (n : Nat) => packet_with_sequence (n : Int))) := by
  have hconnect : ∀ s, (mock_server (burst_of seqs pad)).connect s = some s := fun _ => rfl
  have hwrite : (mock_server (burst_of seqs pad)).write [] create_stream_request =
      some (burst_of seqs pad) := by
    simp [mock_server]
  have hread : (mock_server (burst_of seqs pad)).read (burst_of seqs pad) 1024 =
      some (burst_of seqs pad, []) := by
    simp only [mock_server, hlen, le_refl, if_true]
    rw [← hlen, List.take_length, List.drop_length]
  simp only [collect_packets, ABXClient.connect, ABXClient.send_request,
    ABXClient.receive_response, fresh_client, hconnect, hwrite, hread, bind, Except.bind,
    split_records_burst seqs pad hpad hn, List.nil_append, List.cons_append]

theorem main_of_collect_ok {σ : Type} (T : Transport σ) (c c1 c2 : ABXClient σ)
    (packets : List Packet) (h : collect_packets T c = .ok (c1, packets))
    (hclose : c1.close T = .ok c2) :
    main T c = .ok { exit_code := 0, output_json := some packets, error_printed := false,
                     saved_printed := true } := by
  simp only [main, h, hclose]

/-- C14, on the source: when the peer refuses the connection, fails the write of the
stream request, or fails the first read, `main` catches the exception, prints it, and
returns exit status 0; a session that completes returns 0 as well. -/
theorem main_returns_zero_on_failure :
    main (refusing_server []) fresh_client =
      .ok { exit_code := 0, output_json := none, error_printed := true,
            saved_printed := false } ∧
    main (deaf_server []) fresh_client =
      .ok { exit_code := 0, output_json := none, error_printed := true,
            saved_printed := false } ∧
    main (mute_server []) fresh_client =
      .ok { exit_code := 0, output_json := none, error_printed := true,
            saved_printed := false } ∧
    (main (mock_server (burst_of (sixty_with_last 60) [0, 0, 0, 0])) fresh_client).map
      (fun out => (out.exit_code, out.error_printed, out.saved_printed)) =
      .ok (0, false, true) := by
  refine ⟨by decide, by decide, by decide, ?_⟩
  obtain ⟨c1, responses, resent, hrun, _⟩ := resend_all_ok
    (mock_server (burst_of (sixty_with_last 60) [0, 0, 0, 0]))
    (mock_server_faithful _).answers
    (missing_between (((sixty_with_last 60).map
      (fun (n : Nat) => packet_with_sequence (n : Int))).map
      (fun packet => packet.sequence_number)) 1 60)
    { socket := [], log := [Event.sent create_stream_request,
        Event.received (burst_of (sixty_with_last 60) [0, 0, 0, 0])] }
    ((sixty_with_last 60).map (fun (n : Nat) => packet_with_sequence (n : Int)))
  have hcollect : collect_packets (mock_server (burst_of (sixty_with_last 60) [0, 0, 0, 0]))
      fresh_client = .ok (c1, (sixty_with_last 60).map
        (fun (n : Nat) => packet_with_sequence (n : Int)) ++ resent) := by
    rw [collect_packets_mock_server _ _ (by decide) (by decide) (by decide),
      handle_missing_sequences_eq _ _ _ 60 (by decide) (by decide) (by decide), hrun]
  rw [main_of_collect_ok _ _ c1 c1 _ hcollect rfl]
  rfl

/-! ## The counter at `INT32_MAX` -/

theorem gap_loop_overflow {σ : Type} (T : Transport σ) (hT : T.Answers) (rs : List Int)
    (last : Int) (hlast : back rs = .ok last) (hmax : INT32_MAX ≤ last) :
    ∀ (k : Nat) (e : Int) (c : ABXClient σ) (packets : List Packet),
      (INT32_MAX + 1 - e).toNat = k → e ≤ INT32_MAX →
      gap_loop T rs e c packets = .error .signed_overflow := by
  intro k
  induction k with
  | zero => intro e c packets hk he; omega
  | succ k ih =>
    intro e c packets hk he
    rw [gap_loop_unfold T rs last hlast, if_pos (by omega)]
    by_cases hmem : e ∈ rs
    · simp only [hmem, if_true]
      by_cases hover : INT32_MAX ≤ e
      · rw [if_pos hover]
      · rw [if_neg hover]
        exact ih (e + 1) c packets (by omega) (by omega)
    · simp only [hmem, if_false]
      obtain ⟨c1, _, packet, hreq, _⟩ := request_missing_ok T hT e c packets
      rw [hreq]
      by_cases hover : INT32_MAX ≤ e
      · simp only [if_pos hover]
      · simp only [if_neg hover]
        exact ih (e + 1) c1 _ (by omega) (by omega)

/-- Step 3 on a record set whose largest sequence number is `INT32_MAX`, with a peer
that answers: the counter reaches `INT32_MAX` and its increment overflows. -/
theorem handle_missing_sequences_overflow {σ : Type} (T : Transport σ) (hT : T.Answers)
    (c : ABXClient σ) (packets : List Packet)
    (hmem : INT32_MAX ∈ packets.map (fun packet => packet.sequence_number))
    (hmax : ∀ s ∈ packets.map (fun packet => packet.sequence_number), s ≤ INT32_MAX) :
    handle_missing_sequences T c packets = .error .signed_overflow := by
  unfold handle_missing_sequences
  exact gap_loop_overflow T hT _ INT32_MAX (back_std_sort _ _ hmem hmax) (le_refl _) _ 1 c
    packets rfl (by decide)

/-- C16, on the source: the record with sequence bytes `7F FF FF FF` decodes to
`2147483647`; with it in the record set and a peer that always answers, the counter
`expected_sequence` never exceeds `maxSeq`: it reaches `2147483647` and the increment
overflows, both in step 3 alone and in a whole session whose burst carries the records
numbered `1 .. 59` and `2147483647`. -/
theorem gap_loop_overflows_at_int32_max :
    parse_packet (record_with_sequence 2147483647) = .ok (packet_with_sequence INT32_MAX) ∧
    handle_missing_sequences (mock_server []) fresh_client [packet_with_sequence INT32_MAX] =
      .error .signed_overflow ∧
    session (mock_server (burst_of (sixty_with_last 2147483647) [0, 0, 0, 0])) fresh_client =
      .error .signed_overflow := by
  refine ⟨parse_record_with_sequence 2147483647 (by decide), ?_, ?_⟩
  · exact handle_missing_sequences_overflow _ (mock_server_faithful []).answers _ _
      (by decide) (by decide)
  · rw [session_mock_server _ _ (by decide) (by decide) (by decide)]
    exact handle_missing_sequences_overflow _ (mock_server_faithful _).answers _ _
      (by decide) (by decide)

/-! ## Step 3 is never entered with an empty record set -/

end ABX
